import Mathlib

/-!
Verification of the greenthumb-app repository core against its specification.

Shallow embedding of:
* `src/services/plantAnalysisApi.ts` — the Remote Analysis Client
  (`analyzePlantImage`), modelled as a pure function from the file argument
  and the outcome of the single `fetch` exchange to the settled result of the
  returned promise.  A promise that fulfils is `Except.ok`, a promise that
  rejects (a thrown exception escaping the function) is `Except.error`.
* `src/pages/PlantHealth.tsx` — the page-level `handleImageSelect` validation.
* `src/utils/dateUtils.ts` — the Locale Formatter (`formatDecimal`,
  `formatNumber`, `formatNumberWithPercent`, `getMonthAbbr`, `getMonthName`,
  `getLocaleCode`).  JavaScript numbers are modelled as rationals; the host
  `toLocaleString` is modelled by its ECMA-402 behaviour for the three locale
  codes the code can produce (`en-US`, `hi-IN`, `kn-IN`): round to the
  requested fraction-digit window with half-away-from-zero rounding, Western
  (3/3) or Indian (3/2) digit grouping with `,`, decimal point `.`.
* `src/i18n/config.ts` — persisted language preference handling
  (`getSavedLanguage`, `initialLanguage`, the `languageChanged` handler).
  `localStorage` is modelled as an explicit environment value; the i18next
  translation function `t` (an external library call) is modelled as an
  abstract lookup returning `Option String`, a missing translation being a
  JavaScript-falsy result.
-/

namespace GreenThumb

/-! ## JSON values (bodies of HTTP responses) -/

/-- A JSON value as delivered by `response.json()`.  Numbers are modelled as
integers scaled by a power of ten (`num m e` denotes `m / 10^e`), enough for
the bounded numeric fields of the API. -/
inductive Json where
  | null : Json
  | bool (b : Bool) : Json
  | num (mantissa : Int) (exp10 : Nat) : Json
  | str (s : String) : Json
  | arr (elems : List Json) : Json
  | obj (fields : List (String × Json)) : Json

/-- JavaScript truthiness of a JSON value (`null`, `false`, `0`, `""` are
falsy; arrays and objects are always truthy). -/
def Json.truthy : Json → Bool
  | .null => false
  | .bool b => b
  | .num m _ => m ≠ 0
  | .str s => s ≠ ""
  | .arr _ => true
  | .obj _ => true

/-- Property lookup on a JSON object: first binding of the key, `none` when
the key is absent or the value is not an object (JavaScript yields
`undefined` for property access on primitives). -/
def Json.getField : Json → String → Option Json
  | .obj fields, k => fields.lookup k
  | _, _ => none

/-- JavaScript `String(v)` coercion as applied by the `Error` constructor to
its message argument. -/
def Json.jsToString : Json → String
  | .null => "null"
  | .bool b => if b then "true" else "false"
  | .num m _ => toString m
  | .str s => s
  | .arr _ => ""
  | .obj _ => "[object Object]"

/-! ## The Remote Analysis Client (`plantAnalysisApi.ts`) -/

/-- The `File` argument of `analyzePlantImage`: the metadata the code can
observe (the binary content itself is opaque to the client). -/
structure FileDesc where
  name : String
  type : String
  size : Nat
deriving DecidableEq, Repr

/-- Result of `await response.json()` on the exchanged response. -/
inductive BodyParse where
  | json (j : Json) : BodyParse
  | unparsable (reason : String) : BodyParse

/-- Outcome of the single `fetch` exchange: either the promise rejects with a
host exception (network unreachable, timeout, abort), or a response with a
status code and a body arrives. -/
inductive FetchOutcome where
  | reject (reason : String) : FetchOutcome
  | response (status : Nat) (body : BodyParse) : FetchOutcome

/-- A value thrown out of `analyzePlantImage`: either a raw host exception
re-thrown unchanged by the `catch` block, or the `Error` the code itself
constructs from a resolved message. -/
inductive ThrownValue where
  | raw (reason : String) : ThrownValue
  | errorMsg (msg : String) : ThrownValue
deriving DecidableEq, Repr

/-- `API_BASE_URL` from `plantAnalysisApi.ts`. -/
def API_BASE_URL : String := "http://localhost:8000"

/-- The multipart POST request the code constructs unconditionally. -/
structure HttpRequest where
  method : String
  url : String
  accept : String
  fileField : String × FileDesc
deriving DecidableEq, Repr

/-- The request `analyzePlantImage` builds for a given file: `FormData` with
the file under the fixed field name `file`, POSTed to the fixed path. -/
def analyzeRequest (file : FileDesc) : HttpRequest :=
  { method := "POST"
    url := API_BASE_URL ++ "/analyze"
    accept := "application/json"
    fileField := ("file", file) }

/-- `response.ok` per the Fetch standard: status in the range 200–299. -/
def isOkStatus (status : Nat) : Bool :=
  200 ≤ status && status ≤ 299

/-- `errorData.detail || errorData.message || "HTTP error! status: ..."` —
the message resolution of the non-ok branch, with JavaScript `||` falsiness. -/
def resolveErrorMessage (errorData : Json) (status : Nat) : String :=
  match errorData.getField "detail" with
  | some d => if d.truthy then d.jsToString else
      match errorData.getField "message" with
      | some m => if m.truthy then m.jsToString
                  else "HTTP error! status: " ++ toString status
      | none => "HTTP error! status: " ++ toString status
  | none =>
      match errorData.getField "message" with
      | some m => if m.truthy then m.jsToString
                  else "HTTP error! status: " ++ toString status
      | none => "HTTP error! status: " ++ toString status

/-- `await response.json().catch(() => ({}))` of the non-ok branch: the
parsed body, or the empty object when the body is unparsable. -/
def errorBodyOrEmpty : BodyParse → Json
  | .json j => j
  | .unparsable _ => Json.obj []

/-- Property access `errorData.detail` can itself throw when `errorData` is
JSON `null` (`TypeError` in JavaScript); the outer `catch` re-throws it raw. -/
def nonOkOutcome (body : BodyParse) (status : Nat) : ThrownValue :=
  match errorBodyOrEmpty body with
  | .null => .raw "TypeError: Cannot read properties of null"
  | errorData => .errorMsg (resolveErrorMessage errorData status)

/-- `analyzePlantImage` from `plantAnalysisApi.ts`, as a function of the file
and of the outcome of its one network exchange.  The first component is the
request issued (the code constructs and submits it unconditionally, before
any branch); the second is the settled promise: `Except.ok` the fulfilled
value, `Except.error` a thrown exception escaping the function (the `catch`
block logs and re-throws every error). -/
def analyzePlantImage (file : FileDesc) (net : FetchOutcome) :
    Option HttpRequest × Except ThrownValue Json :=
  (some (analyzeRequest file),
    match net with
    | .reject reason => .error (.raw reason)
    | .response status body =>
        if isOkStatus status then
          match body with
          | .json j => .ok j
          | .unparsable reason => .error (.raw reason)
        else
          .error (nonOkOutcome body status))

/-! ## The page-level input validation (`PlantHealth.tsx`) -/

/-- Model of JavaScript `s.startsWith(p)`: character-wise prefix test. -/
def strStartsWith (s p : String) : Bool :=
  p.data.isPrefixOf s.data

/-- The slice of the `PlantHealth` component state touched by
`handleImageSelect`. -/
structure PlantHealthState where
  image : Option String
  imageFile : Option FileDesc
  error : Option String
deriving DecidableEq, Repr

/-- The data-URL preview produced by the `FileReader`, modelled abstractly
from the file it reads. -/
def previewDataUrl (file : FileDesc) : String :=
  "data:" ++ file.type ++ ";base64," ++ file.name

/-- `handleImageSelect` from `PlantHealth.tsx`: rejects a file whose declared
content type is not `image/...` or whose size exceeds `5 * 1024 * 1024`
bytes, setting an error message and leaving the stored file untouched;
otherwise (after the reader completes) stores the preview and the file and
clears the error. -/
def handleImageSelect (st : PlantHealthState) (file : FileDesc) :
    PlantHealthState :=
  if ¬ (strStartsWith file.type "image/") then
    { st with error := some "Please select a valid image file" }
  else if 5 * 1024 * 1024 < file.size then
    { st with error := some "File size must be less than 5MB" }
  else
    { st with
      image := some (previewDataUrl file)
      imageFile := some file
      error := none }

/-! ## Persisted language preference (`i18n/config.ts`) -/

/-- The host environment visible to `i18n/config.ts`: no browser (`window` or
`localStorage` undefined), or a browser with a `localStorage` whose reads or
writes may throw. -/
structure BrowserStorage where
  entries : List (String × String)
  getThrows : Bool
  setThrows : Bool
deriving DecidableEq, Repr

inductive JsEnv where
  | noBrowser : JsEnv
  | browser (storage : BrowserStorage) : JsEnv
deriving DecidableEq, Repr

/-- `validLanguages` from `i18n/config.ts`. -/
def validLanguages : List String := ["en", "kn", "hi"]

/-- `getSavedLanguage` from `i18n/config.ts`:
`localStorage.getItem('i18nextLng') || 'en'`, returning `'en'` outside a
browser or when the read throws; the `||` default also fires on an empty
stored string (JavaScript falsiness). -/
def getSavedLanguage : JsEnv → String
  | .noBrowser => "en"
  | .browser storage =>
      if storage.getThrows then "en"
      else
        match storage.entries.lookup "i18nextLng" with
        | none => "en"
        | some v => if v = "" then "en" else v

/-- `initialLanguage` from `i18n/config.ts`:
`validLanguages.includes(savedLanguage) ? savedLanguage : 'en'`. -/
def initialLanguage (env : JsEnv) : String :=
  let savedLanguage := getSavedLanguage env
  if validLanguages.contains savedLanguage then savedLanguage else "en"

/-- `localStorage.setItem` on the modelled store: replaces the binding of the
key, appending when absent. -/
def storeSet (entries : List (String × String)) (k v : String) :
    List (String × String) :=
  match entries with
  | [] => [(k, v)]
  | (k', v') :: rest =>
      if k' = k then (k, v) :: rest else (k', v') :: storeSet rest k v

/-- The `i18n.on('languageChanged')` handler from `i18n/config.ts`: persists
the new tag under `'i18nextLng'`; does nothing outside a browser; catches and
swallows a throwing write, leaving the store unchanged. -/
def handleLanguageChanged (env : JsEnv) (lng : String) : JsEnv :=
  match env with
  | .noBrowser => .noBrowser
  | .browser storage =>
      if storage.setThrows then .browser storage
      else .browser { storage with entries := storeSet storage.entries "i18nextLng" lng }

/-! ## The Locale Formatter (`dateUtils.ts`)

JavaScript numbers are modelled as rationals.  The host
`Number.prototype.toLocaleString` is modelled by its ECMA-402 behaviour for
the locale codes `getLocaleCode` can produce: round the absolute value into
the requested fraction-digit window (`minimumFractionDigits` /
`maximumFractionDigits`) with half-away-from-zero rounding, trim trailing
fraction zeros down to the minimum, render the integer part with `,`
grouping (Western 3/3 for `en-US`, Indian 3-then-2 for `hi-IN` and `kn-IN`),
decimal point `.`, and a leading `-` for negative inputs. -/

/-- The ten decimal digit characters. -/
def digitChars : List Char := ['0', '1', '2', '3', '4', '5', '6', '7', '8', '9']

/-- The character of a decimal digit. -/
def digitChar (d : Nat) : Char := digitChars.getD (d % 10) '0'

/-- Decimal digits of `n`, least significant first, with explicit fuel
(structural recursion keeps it kernel-computable; any fuel at least the
digit count of `n` is enough). -/
def natDigitsRevAux : Nat → Nat → List Char
  | _, 0 => []
  | n, fuel + 1 =>
      if n = 0 then [] else digitChar (n % 10) :: natDigitsRevAux (n / 10) fuel

/-- Decimal digits of a natural number, least significant first; empty for 0. -/
def natDigitsRev (n : Nat) : List Char :=
  natDigitsRevAux n n

/-- Decimal rendering of a natural number, most significant digit first. -/
def natRepr (n : Nat) : List Char :=
  if n = 0 then ['0'] else (natDigitsRev n).reverse

/-- Exactly `d` decimal digits of `n` (zero padded), most significant first. -/
def fixedDigits : Nat → Nat → List Char
  | _, 0 => []
  | n, d + 1 => fixedDigits (n / 10) d ++ [digitChar (n % 10)]

/-- Western grouping on a least-significant-first digit list: a `,` after
every complete group of three digits that is followed by more digits. -/
def group3Rev : List Char → List Char
  | d1 :: d2 :: d3 :: rest =>
      if rest.isEmpty then [d1, d2, d3]
      else d1 :: d2 :: d3 :: ',' :: group3Rev rest
  | ds => ds

/-- Grouping by twos on a least-significant-first digit list (the higher
groups of the Indian numbering system). -/
def group2Rev : List Char → List Char
  | d1 :: d2 :: rest =>
      if rest.isEmpty then [d1, d2]
      else d1 :: d2 :: ',' :: group2Rev rest
  | ds => ds

/-- Indian grouping on a least-significant-first digit list: one group of
three, then groups of two. -/
def groupIndianRev (ds : List Char) : List Char :=
  match ds with
  | d1 :: d2 :: d3 :: rest =>
      if rest.isEmpty then [d1, d2, d3]
      else d1 :: d2 :: d3 :: ',' :: group2Rev rest
  | _ => ds

/-- Grouped rendering of an integer-part digit list (most significant first)
for a resolved locale code. -/
def groupIntDigits (locale : String) (ds : List Char) : List Char :=
  if locale = "hi-IN" || locale = "kn-IN" then (groupIndianRev ds.reverse).reverse
  else (group3Rev ds.reverse).reverse

/-- Drop leading `'0'` characters while the list stays longer than `minLen`
(used on the reversed fraction digits, so: trailing zeros). -/
def dropZerosTo (minLen : Nat) : List Char → List Char
  | [] => []
  | c :: rest =>
      if c = '0' && decide (minLen < rest.length + 1) then dropZerosTo minLen rest
      else c :: rest

/-- Trim trailing zeros of a fraction-digit list down to `minLen` digits. -/
def trimFrac (minLen : Nat) (frac : List Char) : List Char :=
  (dropZerosTo minLen frac.reverse).reverse

/-- ECMA-402 `halfExpand` rounding of a non-negative rational to a natural. -/
def roundHalfExpand (q : ℚ) : Nat := (⌊q + 1 / 2⌋).toNat

/-- Integer-part characters of `toLocaleString` output. -/
def intCharsOf (v : ℚ) (maxFrac : Nat) (locale : String) : List Char :=
  groupIntDigits locale
    (natRepr (roundHalfExpand (|v| * (10 ^ maxFrac : ℚ)) / 10 ^ maxFrac))

/-- Fraction-part characters of `toLocaleString` output (after trimming). -/
def fracCharsOf (v : ℚ) (minFrac maxFrac : Nat) : List Char :=
  trimFrac minFrac
    (fixedDigits (roundHalfExpand (|v| * (10 ^ maxFrac : ℚ)) % 10 ^ maxFrac) maxFrac)

/-- Model of `value.toLocaleString(locale, ...)` with the given fraction-digit
window, for the locales reachable from `getLocaleCode`. -/
def toLocaleStringFixed (v : ℚ) (minFrac maxFrac : Nat) (locale : String) : String :=
  String.mk
    ((if v < 0 then ['-'] else []) ++ intCharsOf v maxFrac locale ++
      (if (fracCharsOf v minFrac maxFrac).isEmpty then []
       else '.' :: fracCharsOf v minFrac maxFrac))

/-- `localeMap` from `getLocaleCode` in `dateUtils.ts`. -/
def localeMap : List (String × String) :=
  [("en", "en-US"), ("hi", "hi-IN"), ("kn", "kn-IN")]

/-- `getLocaleCode` from `dateUtils.ts`: `localeMap[lang] || 'en-US'`.  The
current language `i18n.language` is passed explicitly as `lang`. -/
def getLocaleCode (lang : String) : String :=
  (localeMap.lookup lang).getD "en-US"

/-- `formatNumber` from `dateUtils.ts` with no options:
`num.toLocaleString(locale)` — default window 0 to 3 fraction digits. -/
def formatNumber (num : ℚ) (lang : String) : String :=
  toLocaleStringFixed num 0 3 (getLocaleCode lang)

/-- `formatNumberWithPercent` from `dateUtils.ts`:
`showPlus && num > 0 ? plus-variant : plain-variant`, appending `%`. -/
def formatNumberWithPercent (num : ℚ) (showPlus : Bool) (lang : String) : String :=
  if showPlus && decide (0 < num) then "+" ++ formatNumber num lang ++ "%"
  else formatNumber num lang ++ "%"

/-- `formatDecimal` from `dateUtils.ts`: `toLocaleString` with
`minimumFractionDigits` and `maximumFractionDigits` both set to `decimals`. -/
def formatDecimal (num : ℚ) (decimals : Nat) (lang : String) : String :=
  toLocaleStringFixed num decimals decimals (getLocaleCode lang)

/-- Number of fraction digits a rendered decimal string displays: the
characters after the (first) decimal point, 0 when there is none. -/
def fracDigitCount (s : String) : Nat :=
  (s.data.dropWhile (fun c => c != '.')).length - 1

/-- `monthKeys` of `getMonthAbbr` in `dateUtils.ts`. -/
def monthAbbrKeys : List String :=
  ["jan", "feb", "mar", "apr", "may", "jun", "jul", "aug", "sep", "oct", "nov", "dec"]

/-- `monthKeys` of `getMonthName` in `dateUtils.ts`. -/
def monthNameKeys : List String :=
  ["january", "february", "march", "april", "mayFull", "june", "july", "august",
   "september", "october", "november", "december"]

/-- JavaScript `a || b` on the result of a translation lookup: the looked-up
string when it is present and non-empty (truthy), the fallback otherwise. -/
def jsOrString (looked : Option String) (fallback : String) : String :=
  match looked with
  | some s => if s = "" then fallback else s
  | none => fallback

/-- `getMonthAbbr` from `dateUtils.ts`.  The i18next translation function is
passed explicitly as `t`, a lookup returning `none` (or an empty string) for
a missing translation. -/
def getMonthAbbr (t : String → Option String) (monthIndex : Nat) : String :=
  let key := monthAbbrKeys.getD monthIndex "undefined"
  jsOrString (t ("months." ++ key)) key

/-- `getMonthName` from `dateUtils.ts`, under the same modelling of `t`. -/
def getMonthName (t : String → Option String) (monthIndex : Nat) : String :=
  let key := monthNameKeys.getD monthIndex "undefined"
  jsOrString (t ("months." ++ key)) key

/-! ## Concrete sample values used by counterexamples and witnesses -/

/-- A well-formed image file. -/
def sampleImageFile : FileDesc :=
  { name := "leaf.jpg", type := "image/jpeg", size := 2048 }

/-- A file that does not declare an image content type. -/
def sampleTextFile : FileDesc :=
  { name := "notes.txt", type := "text/plain", size := 1024 }

/-- A well-formed success body of the `/analyze` endpoint. -/
def sampleGoodBody : Json :=
  Json.obj
    [("crop_type", Json.str "tomato"),
     ("disease_status", Json.str "late blight"),
     ("severity_level", Json.num 40 0),
     ("confidence", Json.num 87 2),
     ("recommendations", Json.arr [Json.str "Remove affected leaves"])]

/-- A 2xx body with the required `confidence` field missing. -/
def sampleBodyNoConfidence : Json :=
  Json.obj
    [("crop_type", Json.str "tomato"),
     ("disease_status", Json.str "late blight"),
     ("severity_level", Json.num 40 0),
     ("recommendations", Json.arr [])]

/-! ## Claims about the Remote Analysis Client -/

/-- C1, counterexample: a transport failure of the `fetch` exchange is
re-thrown raw by `analyzePlantImage` — the raw transport exception
propagates past the component boundary instead of being resolved to a typed
failure value. -/
theorem C1_counterexample :
    (analyzePlantImage sampleImageFile (.reject "TypeError: Failed to fetch")).2
      = Except.error (ThrownValue.raw "TypeError: Failed to fetch") := rfl

/-- C1, amended: `analyzePlantImage` fulfils exactly when the exchange
produced a success-status response with a parseable JSON body, and then with
the parsed value; every other outcome escapes the component as a thrown
exception — in particular a rejected `fetch` (transport failure) is re-thrown
as the raw exception itself. -/
theorem C1_amended (file : FileDesc) :
    (∀ net, ((analyzePlantImage file net).2.isOk = true ↔
        ∃ status j, net = .response status (.json j) ∧ isOkStatus status = true))
    ∧ (∀ reason,
        (analyzePlantImage file (.reject reason)).2
          = Except.error (ThrownValue.raw reason)) := by
  constructor
  · intro net
    constructor
    · intro h
      rcases net with reason | ⟨status, body⟩
      · simp [analyzePlantImage, Except.isOk, Except.toBool] at h
      · rcases body with j | reason
        · by_cases hok : isOkStatus status = true
          · exact ⟨status, j, rfl, hok⟩
          · simp [analyzePlantImage, hok, Except.isOk, Except.toBool] at h
        · by_cases hok : isOkStatus status = true <;>
            simp [analyzePlantImage, hok, Except.isOk, Except.toBool] at h
    · rintro ⟨status, j, rfl, hok⟩
      simp [analyzePlantImage, hok, Except.isOk, Except.toBool]
  · intro reason
    rfl

/-- C2, counterexample: `analyzePlantImage` performs no local validation — it
issues the network request even for a file that does not declare an image
content type, and resolves a success response normally rather than
short-circuiting with a validation failure. -/
theorem C2_counterexample :
    strStartsWith sampleTextFile.type "image/" = false
    ∧ (analyzePlantImage sampleTextFile (.response 200 (.json sampleGoodBody))).1
        = some (analyzeRequest sampleTextFile)
    ∧ (analyzePlantImage sampleTextFile (.response 200 (.json sampleGoodBody))).2
        = Except.ok sampleGoodBody := by
  refine ⟨by decide, rfl, rfl⟩

/-- C2, amended: the pre-network validation lives in the page handler
`handleImageSelect`, not in `analyzePlantImage`: a file without an image
content type, or over the 5 MiB ceiling, is refused with an error message
and never stored as the selected image (so the page never submits it), while
`analyzePlantImage` itself issues the network request for every file it is
given. -/
theorem C2_amended :
    (∀ st file, strStartsWith file.type "image/" = false →
        (handleImageSelect st file).imageFile = st.imageFile
        ∧ (handleImageSelect st file).error = some "Please select a valid image file")
    ∧ (∀ st file, strStartsWith file.type "image/" = true →
        5 * 1024 * 1024 < file.size →
        (handleImageSelect st file).imageFile = st.imageFile
        ∧ (handleImageSelect st file).error = some "File size must be less than 5MB")
    ∧ (∀ file net, (analyzePlantImage file net).1 = some (analyzeRequest file)) := by
  refine ⟨?_, ?_, ?_⟩
  · intro st file h
    simp [handleImageSelect, h]
  · intro st file h hsize
    simp [handleImageSelect, h, hsize]
  · intro file net
    rfl

/-- C2, witness for the amended theorem at a concrete non-image file. -/
theorem C2_amended_witness :
    strStartsWith sampleTextFile.type "image/" = false
    ∧ (handleImageSelect ⟨none, none, none⟩ sampleTextFile).imageFile = none
    ∧ (handleImageSelect ⟨none, none, none⟩ sampleTextFile).error
        = some "Please select a valid image file" := by
  have h := C2_amended.1 ⟨none, none, none⟩ sampleTextFile (by decide)
  exact ⟨by decide, h.1, h.2⟩

/-- C3, counterexample: a success response whose body is missing the
required `confidence` field is returned as-is by `analyzePlantImage` — no
schema validation happens, so the caller receives the malformed value
instead of a MalformedResponseError failure. -/
theorem C3_counterexample :
    (analyzePlantImage sampleImageFile
        (.response 200 (.json sampleBodyNoConfidence))).2
      = Except.ok sampleBodyNoConfidence
    ∧ sampleBodyNoConfidence.getField "confidence" = none := by
  exact ⟨rfl, rfl⟩

/-- C3, amended: on a success HTTP status `analyzePlantImage` returns the
parsed JSON body unchanged, whatever its shape (a body missing `confidence`
included); a success response whose body fails to parse makes the call throw
the raw parse exception rather than produce a typed failure. -/
theorem C3_amended (file : FileDesc) (status : Nat) :
    (∀ j, isOkStatus status = true →
        (analyzePlantImage file (.response status (.json j))).2 = Except.ok j)
    ∧ (∀ reason, isOkStatus status = true →
        (analyzePlantImage file (.response status (.unparsable reason))).2
          = Except.error (ThrownValue.raw reason)) := by
  constructor
  · intro j hok
    simp [analyzePlantImage, hok]
  · intro reason hok
    simp [analyzePlantImage, hok]

/-- C3, witness for the amended theorem at status 200 and the concrete body
missing `confidence`. -/
theorem C3_amended_witness :
    isOkStatus 200 = true
    ∧ (analyzePlantImage sampleImageFile
        (.response 200 (.json sampleBodyNoConfidence))).2
        = Except.ok sampleBodyNoConfidence := by
  exact ⟨by decide, (C3_amended sampleImageFile 200).1 sampleBodyNoConfidence (by decide)⟩

/-- Helper: characters of a concatenation of strings. -/
theorem strDataAppend (s t : String) : (s ++ t).data = s.data ++ t.data := by
  cases s; cases t; rfl

/-- Helper: the synthesized status message is never the empty string. -/
theorem httpErrMsg_ne_empty (status : Nat) :
    "HTTP error! status: " ++ toString status ≠ "" := by
  intro h
  have hlen := congrArg String.length h
  rw [String.length_append] at hlen
  have h20 : ("HTTP error! status: ").length = 20 := by decide
  have h0 : ("" : String).length = 0 := by decide
  rw [h20, h0] at hlen
  omega

/-- Helper: the settled outcome (second component) of `analyzePlantImage` on
a non-success response with a JSON-object error body is the constructed
`Error` carrying the resolved message. -/
theorem analyzePlantImage_nonOk_obj (file : FileDesc) (status : Nat)
    (fields : List (String × Json)) (h : isOkStatus status = false) :
    (analyzePlantImage file (.response status (.json (Json.obj fields)))).2
      = Except.error (.errorMsg (resolveErrorMessage (Json.obj fields) status)) := by
  simp [analyzePlantImage, h, nonOkOutcome, errorBodyOrEmpty]

/-- C4: on every non-success response the failure message is resolved from
the parsed JSON error body in order of preference — a present, non-empty
`detail` string wins; otherwise a present, non-empty `message` string;
otherwise (also when the body is unparsable) a synthesized message carrying
the numeric status code — and when the fields have the declared string
shape the resolved message is never empty.  Concretely, HTTP 500 with body
detail `"model unavailable"` resolves to exactly `"model unavailable"`, and
HTTP 500 with an unparsable body resolves to a message containing `"500"`. -/
theorem C4_message_resolution :
    (∀ file status fields, isOkStatus status = false →
        (analyzePlantImage file (.response status (.json (Json.obj fields)))).2
          = Except.error (.errorMsg (resolveErrorMessage (Json.obj fields) status)))
    ∧ (∀ file status reason, isOkStatus status = false →
        (analyzePlantImage file (.response status (.unparsable reason))).2
          = Except.error (.errorMsg ("HTTP error! status: " ++ toString status)))
    ∧ (∀ fields status d, fields.lookup "detail" = some (Json.str d) → d ≠ "" →
        resolveErrorMessage (Json.obj fields) status = d)
    ∧ (∀ fields status m, fields.lookup "detail" = none →
        fields.lookup "message" = some (Json.str m) → m ≠ "" →
        resolveErrorMessage (Json.obj fields) status = m)
    ∧ (∀ fields status, fields.lookup "detail" = none →
        fields.lookup "message" = none →
        resolveErrorMessage (Json.obj fields) status
          = "HTTP error! status: " ++ toString status)
    ∧ (∀ fields status,
        (∀ j, fields.lookup "detail" = some j → ∃ s, j = Json.str s) →
        (∀ j, fields.lookup "message" = some j → ∃ s, j = Json.str s) →
        resolveErrorMessage (Json.obj fields) status ≠ "")
    ∧ (analyzePlantImage sampleImageFile
        (.response 500 (.json (Json.obj [("detail", Json.str "model unavailable")])))).2
        = Except.error (.errorMsg "model unavailable")
    ∧ (analyzePlantImage sampleImageFile (.response 500 (.unparsable "SyntaxError"))).2
        = Except.error (.errorMsg ("HTTP error! status: " ++ "500")) := by
  refine ⟨?_, ?_, ?_, ?_, ?_, ?_, rfl, rfl⟩
  · exact fun file status fields h => analyzePlantImage_nonOk_obj file status fields h
  · intro file status reason h
    simp [analyzePlantImage, h, nonOkOutcome, errorBodyOrEmpty, resolveErrorMessage,
      Json.getField]
  · intro fields status d hd hne
    simp [resolveErrorMessage, Json.getField, hd, Json.truthy, Json.jsToString, hne]
  · intro fields status m hd hm hne
    simp [resolveErrorMessage, Json.getField, hd, hm, Json.truthy, Json.jsToString, hne]
  · intro fields status hd hm
    simp [resolveErrorMessage, Json.getField, hd, hm]
  · intro fields status hdshape hmshape
    unfold resolveErrorMessage
    rcases hd : (Json.obj fields).getField "detail" with _ | d
    · rcases hm : (Json.obj fields).getField "message" with _ | m
      · exact httpErrMsg_ne_empty status
      · obtain ⟨s, rfl⟩ := hmshape m (by simpa [Json.getField] using hm)
        by_cases hs : s = ""
        · simpa [Json.truthy, Json.jsToString, hs] using httpErrMsg_ne_empty status
        · simp [Json.truthy, Json.jsToString, hs]
    · obtain ⟨s, rfl⟩ := hdshape d (by simpa [Json.getField] using hd)
      by_cases hs : s = ""
      · rcases hm : (Json.obj fields).getField "message" with _ | m
        · simpa [Json.truthy, hs] using httpErrMsg_ne_empty status
        · obtain ⟨s', rfl⟩ := hmshape m (by simpa [Json.getField] using hm)
          by_cases hs' : s' = ""
          · simpa [Json.truthy, Json.jsToString, hs, hs'] using
              httpErrMsg_ne_empty status
          · simp [Json.truthy, Json.jsToString, hs, hs']
      · simp [Json.truthy, Json.jsToString, hs]

/-- C4, witness: the preference order applied at concrete non-ok responses. -/
theorem C4_witness :
    isOkStatus 500 = false
    ∧ (analyzePlantImage sampleImageFile
        (.response 500 (.json (Json.obj
          [("detail", Json.str "model unavailable"),
           ("message", Json.str "ignored")])))).2
        = Except.error (.errorMsg "model unavailable")
    ∧ resolveErrorMessage
        (Json.obj [("message", Json.str "from message")]) 500 = "from message"
    ∧ resolveErrorMessage (Json.obj []) 500 ≠ "" := by
  refine ⟨by decide, ?_, ?_, ?_⟩
  · rw [C4_message_resolution.1 sampleImageFile 500 _ (by decide)]
    rw [C4_message_resolution.2.2.1
      [("detail", Json.str "model unavailable"), ("message", Json.str "ignored")]
      500 "model unavailable" rfl (by decide)]
  · exact C4_message_resolution.2.2.2.1 [("message", Json.str "from message")]
      500 "from message" rfl rfl (by decide)
  · exact C4_message_resolution.2.2.2.2.2.1 [] 500 (by intro j h; cases h)
      (by intro j h; cases h)

/-- C5, counterexample: `analyzePlantImage` takes no cancellation signal, and
an aborted exchange does not resolve to a distinct cancelled outcome — the
abort rejection is caught and re-thrown raw, in exactly the same form as an
ordinary transport failure. -/
theorem C5_counterexample :
    (analyzePlantImage sampleImageFile
        (.reject "AbortError: The operation was aborted.")).2
      = Except.error (ThrownValue.raw "AbortError: The operation was aborted.")
    ∧ (analyzePlantImage sampleImageFile
        (.reject "TypeError: NetworkError when attempting to fetch resource.")).2
      = Except.error
          (ThrownValue.raw "TypeError: NetworkError when attempting to fetch resource.") :=
  ⟨rfl, rfl⟩

/-- C5, amended: cancellation is not supported: `analyzePlantImage` passes no
abort signal to `fetch`, every rejection of the exchange — an abort included —
is re-thrown as the raw exception itself (no distinct cancelled outcome
exists), and each invocation settles to exactly one outcome. -/
theorem C5_amended (file : FileDesc) :
    (∀ reason, (analyzePlantImage file (.reject reason)).2
        = Except.error (ThrownValue.raw reason))
    ∧ (∀ net r r', (analyzePlantImage file net).2 = r →
        (analyzePlantImage file net).2 = r' → r = r') := by
  constructor
  · intro reason
    rfl
  · intro net r r' h h'
    rw [← h, ← h']

/-- C5, witness for the amended theorem at a concrete aborted exchange. -/
theorem C5_amended_witness :
    (analyzePlantImage sampleImageFile (.reject "AbortError")).2
      = Except.error (ThrownValue.raw "AbortError")
    ∧ (Except.error (ThrownValue.raw "AbortError") : Except ThrownValue Json)
      = Except.error (ThrownValue.raw "AbortError") := by
  refine ⟨(C5_amended sampleImageFile).1 "AbortError", ?_⟩
  exact (C5_amended sampleImageFile).2 (.reject "AbortError") _ _ rfl rfl

/-! ## Claims about language persistence and locale resolution -/

/-- C8: an unknown language tag resolves to the default locale `en-US`, and
at startup an absent, unreadable, empty or unrecognized persisted preference
resolves to the baseline tag `en`. -/
theorem C8_locale_fallback :
    (∀ lang, lang ≠ "en" → lang ≠ "hi" → lang ≠ "kn" →
        getLocaleCode lang = "en-US")
    ∧ initialLanguage .noBrowser = "en"
    ∧ (∀ storage : BrowserStorage, storage.entries.lookup "i18nextLng" = none →
        initialLanguage (.browser storage) = "en")
    ∧ (∀ (storage : BrowserStorage) (v : String),
        storage.entries.lookup "i18nextLng" = some v → v ∉ validLanguages →
        initialLanguage (.browser storage) = "en") := by
  refine ⟨?_, rfl, ?_, ?_⟩
  · intro lang h1 h2 h3
    have b1 : (lang == "en") = false := beq_eq_false_iff_ne.mpr h1
    have b2 : (lang == "hi") = false := beq_eq_false_iff_ne.mpr h2
    have b3 : (lang == "kn") = false := beq_eq_false_iff_ne.mpr h3
    simp [getLocaleCode, localeMap, List.lookup, b1, b2, b3]
  · intro storage h
    by_cases hg : storage.getThrows <;>
      simp [initialLanguage, getSavedLanguage, hg, h, validLanguages]
  · intro storage v hv hnv
    by_cases hg : storage.getThrows
    · simp [initialLanguage, getSavedLanguage, hg, validLanguages]
    · by_cases he : v = ""
      · simp [initialLanguage, getSavedLanguage, hg, hv, he, validLanguages]
      · simp [initialLanguage, getSavedLanguage, hg, hv, he, hnv]

/-- C8, witness: the fallbacks at the concrete unrecognized tag `fr`. -/
theorem C8_witness :
    getLocaleCode "fr" = "en-US"
    ∧ initialLanguage (.browser ⟨[], false, false⟩) = "en"
    ∧ initialLanguage (.browser ⟨[("i18nextLng", "fr")], false, false⟩) = "en" := by
  refine ⟨C8_locale_fallback.1 "fr" (by decide) (by decide) (by decide), ?_, ?_⟩
  · exact C8_locale_fallback.2.2.1 ⟨[], false, false⟩ (by decide)
  · exact C8_locale_fallback.2.2.2 ⟨[("i18nextLng", "fr")], false, false⟩ "fr"
      (by decide) (by decide)

/-- Helper: looking up the key just written by `storeSet` yields the written
value. -/
theorem storeSet_lookup (entries : List (String × String)) (k v : String) :
    (storeSet entries k v).lookup k = some v := by
  induction entries with
  | nil => simp [storeSet, List.lookup]
  | cons e rest ih =>
      obtain ⟨k', v'⟩ := e
      by_cases h : k' = k
      · simp [storeSet, h, List.lookup]
      · have h' : (k == k') = false := by
          simp [Ne.symm h]
        simp [storeSet, h, List.lookup, h', ih]

/-- C10: for every supported tag, persisting via the `languageChanged`
handler and restoring at startup is the identity: the handler stores the tag
under `i18nextLng`, and initialization from that state selects exactly that
tag; a throwing storage write is swallowed, leaving the store unchanged. -/
theorem C10_language_roundtrip (storage : BrowserStorage) (lng : String)
    (hlng : lng ∈ validLanguages)
    (hset : storage.setThrows = false) (hget : storage.getThrows = false) :
    (∃ storage' : BrowserStorage,
        handleLanguageChanged (.browser storage) lng = .browser storage'
        ∧ storage'.entries.lookup "i18nextLng" = some lng
        ∧ initialLanguage (.browser storage') = lng)
    ∧ (∀ st : BrowserStorage, st.setThrows = true →
        handleLanguageChanged (.browser st) lng = .browser st) := by
  constructor
  · refine ⟨{ storage with entries := storeSet storage.entries "i18nextLng" lng },
      ?_, ?_, ?_⟩
    · simp [handleLanguageChanged, hset]
    · exact storeSet_lookup storage.entries "i18nextLng" lng
    · have hne : lng ≠ "" := by
        fin_cases hlng <;> decide
      simp [initialLanguage, getSavedLanguage, hget,
        storeSet_lookup storage.entries "i18nextLng" lng, hne, hlng]
  · intro st h
    simp [handleLanguageChanged, h]

/-- C10, witness: round trip at the concrete supported tag `kn`. -/
theorem C10_witness :
    (∃ storage' : BrowserStorage,
        handleLanguageChanged (.browser ⟨[], false, false⟩) "kn" = .browser storage'
        ∧ storage'.entries.lookup "i18nextLng" = some "kn"
        ∧ initialLanguage (.browser storage') = "kn") := by
  exact (C10_language_roundtrip ⟨[], false, false⟩ "kn" (by decide) rfl rfl).1

/-! ## Structural lemmas about the number-rendering pipeline -/

/-- Characters of a `String.mk`. -/
theorem data_mk (l : List Char) : (String.mk l).data = l := rfl

/-- Every `digitChar` is one of the ten digit characters. -/
theorem digitChar_mem (d : Nat) : digitChar d ∈ digitChars := by
  obtain ⟨r, hr⟩ : ∃ r, d % 10 = r := ⟨_, rfl⟩
  have h : r < 10 := hr ▸ Nat.mod_lt d (by norm_num)
  unfold digitChar
  rw [hr]
  interval_cases r <;> decide

/-- `fixedDigits` always produces exactly the requested number of digits. -/
theorem fixedDigits_length : ∀ (d n : Nat), (fixedDigits n d).length = d
  | 0, _ => rfl
  | d + 1, n => by
      simp [fixedDigits, fixedDigits_length d (n / 10)]

/-- Every character of `fixedDigits` is a digit. -/
theorem mem_fixedDigits : ∀ (d n : Nat) (c : Char), c ∈ fixedDigits n d → c ∈ digitChars
  | 0, n, c, h => by simp [fixedDigits] at h
  | d + 1, n, c, h => by
      simp only [fixedDigits, List.mem_append, List.mem_singleton] at h
      rcases h with h | rfl
      · exact mem_fixedDigits d (n / 10) c h
      · exact digitChar_mem _

/-- Every character of `natDigitsRevAux` is a digit. -/
theorem mem_natDigitsRevAux : ∀ (fuel n : Nat) (c : Char),
    c ∈ natDigitsRevAux n fuel → c ∈ digitChars
  | 0, n, c, h => by simp [natDigitsRevAux] at h
  | fuel + 1, n, c, h => by
      simp only [natDigitsRevAux] at h
      split at h
      · simp at h
      · rcases List.mem_cons.mp h with rfl | h'
        · exact digitChar_mem _
        · exact mem_natDigitsRevAux fuel (n / 10) c h'

/-- Every character of `natDigitsRev` is a digit. -/
theorem mem_natDigitsRev (n : Nat) : ∀ c ∈ natDigitsRev n, c ∈ digitChars := by
  intro c hc
  exact mem_natDigitsRevAux n n c hc

/-- `natDigitsRev` of a positive number is non-empty. -/
theorem natDigitsRev_ne_nil (n : Nat) (h : n ≠ 0) : natDigitsRev n ≠ [] := by
  unfold natDigitsRev
  rcases hn : n with _ | m
  · exact absurd hn h
  · simp [natDigitsRevAux]

/-- `natRepr` is never empty. -/
theorem natRepr_ne_nil (n : Nat) : natRepr n ≠ [] := by
  unfold natRepr
  by_cases h : n = 0
  · simp [h]
  · simp [h, natDigitsRev_ne_nil n h]

/-- Every character of `natRepr` is a digit. -/
theorem mem_natRepr (n : Nat) (c : Char) (h : c ∈ natRepr n) : c ∈ digitChars := by
  unfold natRepr at h
  by_cases h0 : n = 0
  · rw [if_pos h0] at h
    simp at h
    subst h
    decide
  · rw [if_neg h0, List.mem_reverse] at h
    exact mem_natDigitsRev n c h

/-- `group3Rev` never empties a non-empty list. -/
theorem group3Rev_ne_nil : ∀ ds : List Char, ds ≠ [] → group3Rev ds ≠ []
  | [], h => absurd rfl h
  | [_], _ => by simp [group3Rev]
  | [_, _], _ => by simp [group3Rev]
  | [_, _, _], _ => by simp [group3Rev]
  | d1 :: d2 :: d3 :: d4 :: rest, _ => by
      have hstep : group3Rev (d1 :: d2 :: d3 :: d4 :: rest)
          = d1 :: d2 :: d3 :: ',' :: group3Rev (d4 :: rest) := by
        simp [group3Rev]
      rw [hstep]
      simp

/-- `group3Rev` preserves the last element. -/
theorem group3Rev_getLast : ∀ ds : List Char, (group3Rev ds).getLast? = ds.getLast?
  | [] => rfl
  | [_] => by simp [group3Rev]
  | [_, _] => by simp [group3Rev]
  | [_, _, _] => by simp [group3Rev]
  | d1 :: d2 :: d3 :: d4 :: rest => by
      have ih := group3Rev_getLast (d4 :: rest)
      have hne : group3Rev (d4 :: rest) ≠ [] := group3Rev_ne_nil _ (by simp)
      have hstep : group3Rev (d1 :: d2 :: d3 :: d4 :: rest)
          = d1 :: d2 :: d3 :: ',' :: group3Rev (d4 :: rest) := by
        simp [group3Rev]
      rw [hstep]
      rcases hL : group3Rev (d4 :: rest) with _ | ⟨c, cs⟩
      · exact absurd hL hne
      · rw [hL] at ih
        simp only [List.getLast?_cons_cons]
        exact ih
termination_by ds => ds.length

/-- Characters of `group3Rev` are characters of the input or separators. -/
theorem mem_group3Rev : ∀ (ds : List Char) (c : Char),
    c ∈ group3Rev ds → c ∈ ds ∨ c = ','
  | [], _, h => Or.inl h
  | [_], _, h => Or.inl h
  | [_, _], _, h => Or.inl h
  | [_, _, _], _, h => Or.inl h
  | d1 :: d2 :: d3 :: d4 :: rest, c, h => by
      have hstep : group3Rev (d1 :: d2 :: d3 :: d4 :: rest)
          = d1 :: d2 :: d3 :: ',' :: group3Rev (d4 :: rest) := by
        simp [group3Rev]
      rw [hstep] at h
      simp only [List.mem_cons] at h
      rcases h with rfl | rfl | rfl | rfl | h
      · exact Or.inl (by simp)
      · exact Or.inl (by simp)
      · exact Or.inl (by simp)
      · exact Or.inr rfl
      · rcases mem_group3Rev (d4 :: rest) c h with h' | h'
        · exact Or.inl (by simp [List.mem_cons] at h' ⊢; tauto)
        · exact Or.inr h'
termination_by ds _ _ => ds.length

/-- `group2Rev` never empties a non-empty list. -/
theorem group2Rev_ne_nil : ∀ ds : List Char, ds ≠ [] → group2Rev ds ≠ []
  | [], h => absurd rfl h
  | [_], _ => by simp [group2Rev]
  | [_, _], _ => by simp [group2Rev]
  | d1 :: d2 :: d3 :: rest, _ => by
      have hstep : group2Rev (d1 :: d2 :: d3 :: rest)
          = d1 :: d2 :: ',' :: group2Rev (d3 :: rest) := by
        simp [group2Rev]
      rw [hstep]
      simp

/-- `group2Rev` preserves the last element. -/
theorem group2Rev_getLast : ∀ ds : List Char, (group2Rev ds).getLast? = ds.getLast?
  | [] => rfl
  | [_] => by simp [group2Rev]
  | [_, _] => by simp [group2Rev]
  | d1 :: d2 :: d3 :: rest => by
      have ih := group2Rev_getLast (d3 :: rest)
      have hne : group2Rev (d3 :: rest) ≠ [] := group2Rev_ne_nil _ (by simp)
      have hstep : group2Rev (d1 :: d2 :: d3 :: rest)
          = d1 :: d2 :: ',' :: group2Rev (d3 :: rest) := by
        simp [group2Rev]
      rw [hstep]
      rcases hL : group2Rev (d3 :: rest) with _ | ⟨c, cs⟩
      · exact absurd hL hne
      · rw [hL] at ih
        simp only [List.getLast?_cons_cons]
        exact ih
termination_by ds => ds.length

/-- Characters of `group2Rev` are characters of the input or separators. -/
theorem mem_group2Rev : ∀ (ds : List Char) (c : Char),
    c ∈ group2Rev ds → c ∈ ds ∨ c = ','
  | [], _, h => Or.inl h
  | [_], _, h => Or.inl h
  | [_, _], _, h => Or.inl h
  | d1 :: d2 :: d3 :: rest, c, h => by
      have hstep : group2Rev (d1 :: d2 :: d3 :: rest)
          = d1 :: d2 :: ',' :: group2Rev (d3 :: rest) := by
        simp [group2Rev]
      rw [hstep] at h
      simp only [List.mem_cons] at h
      rcases h with rfl | rfl | rfl | h
      · exact Or.inl (by simp)
      · exact Or.inl (by simp)
      · exact Or.inr rfl
      · rcases mem_group2Rev (d3 :: rest) c h with h' | h'
        · exact Or.inl (by simp [List.mem_cons] at h' ⊢; tauto)
        · exact Or.inr h'
termination_by ds _ _ => ds.length

/-- `groupIndianRev` preserves the last element. -/
theorem groupIndianRev_getLast (ds : List Char) :
    (groupIndianRev ds).getLast? = ds.getLast? := by
  rcases ds with _ | ⟨d1, _ | ⟨d2, _ | ⟨d3, rest⟩⟩⟩ <;> try rfl
  rcases rest with _ | ⟨r0, rs⟩
  · rfl
  · have hstep : groupIndianRev (d1 :: d2 :: d3 :: r0 :: rs)
        = d1 :: d2 :: d3 :: ',' :: group2Rev (r0 :: rs) := by
      simp [groupIndianRev]
    rw [hstep]
    have ih := group2Rev_getLast (r0 :: rs)
    have hne : group2Rev (r0 :: rs) ≠ [] := group2Rev_ne_nil _ (by simp)
    rcases hL : group2Rev (r0 :: rs) with _ | ⟨c, cs⟩
    · exact absurd hL hne
    · rw [hL] at ih
      simp only [List.getLast?_cons_cons]
      exact ih

/-- Characters of `groupIndianRev` are characters of the input or separators. -/
theorem mem_groupIndianRev (ds : List Char) (c : Char)
    (h : c ∈ groupIndianRev ds) : c ∈ ds ∨ c = ',' := by
  rcases ds with _ | ⟨d1, _ | ⟨d2, _ | ⟨d3, rest⟩⟩⟩
  · exact Or.inl h
  · exact Or.inl h
  · exact Or.inl h
  · rcases rest with _ | ⟨r0, rs⟩
    · exact Or.inl h
    · have hstep : groupIndianRev (d1 :: d2 :: d3 :: r0 :: rs)
          = d1 :: d2 :: d3 :: ',' :: group2Rev (r0 :: rs) := by
        simp [groupIndianRev]
      rw [hstep] at h
      simp only [List.mem_cons] at h
      rcases h with rfl | rfl | rfl | rfl | h
      · exact Or.inl (by simp)
      · exact Or.inl (by simp)
      · exact Or.inl (by simp)
      · exact Or.inr rfl
      · rcases mem_group2Rev (r0 :: rs) c h with h' | h'
        · exact Or.inl (by simp [List.mem_cons] at h' ⊢; tauto)
        · exact Or.inr h'

/-- `groupIntDigits` preserves the leading (most significant) character. -/
theorem groupIntDigits_head (locale : String) (ds : List Char) :
    (groupIntDigits locale ds).head? = ds.head? := by
  unfold groupIntDigits
  split
  · rw [List.head?_reverse, groupIndianRev_getLast, List.getLast?_reverse]
  · rw [List.head?_reverse, group3Rev_getLast, List.getLast?_reverse]

/-- Characters of `groupIntDigits` are characters of the input or separators. -/
theorem mem_groupIntDigits (locale : String) (ds : List Char) (c : Char)
    (h : c ∈ groupIntDigits locale ds) : c ∈ ds ∨ c = ',' := by
  unfold groupIntDigits at h
  split at h
  · rw [List.mem_reverse] at h
    rcases mem_groupIndianRev _ c h with h' | h'
    · exact Or.inl (List.mem_reverse.mp h')
    · exact Or.inr h'
  · rw [List.mem_reverse] at h
    rcases mem_group3Rev _ c h with h' | h'
    · exact Or.inl (List.mem_reverse.mp h')
    · exact Or.inr h'

/-- `dropZerosTo` does nothing on a list no longer than the bound. -/
theorem dropZerosTo_eq_of_le (m : Nat) (l : List Char) (h : l.length ≤ m) :
    dropZerosTo m l = l := by
  cases l with
  | nil => rfl
  | cons c rest =>
      have hlt : ¬ (m < rest.length + 1) := by
        simp at h
        omega
      simp [dropZerosTo, hlt]

/-- `dropZerosTo` only returns characters of the input. -/
theorem mem_dropZerosTo : ∀ (m : Nat) (l : List Char) (c : Char),
    c ∈ dropZerosTo m l → c ∈ l
  | _, [], _, h => by simp [dropZerosTo] at h
  | m, a :: rest, c, h => by
      simp only [dropZerosTo] at h
      split at h
      · exact List.mem_cons_of_mem _ (mem_dropZerosTo m rest c h)
      · exact h

/-- `trimFrac` does nothing on a list no longer than the bound. -/
theorem trimFrac_eq_of_le (m : Nat) (l : List Char) (h : l.length ≤ m) :
    trimFrac m l = l := by
  unfold trimFrac
  rw [dropZerosTo_eq_of_le m l.reverse (by simpa using h), List.reverse_reverse]

/-- `trimFrac` only returns characters of the input. -/
theorem mem_trimFrac (m : Nat) (l : List Char) (c : Char)
    (h : c ∈ trimFrac m l) : c ∈ l := by
  unfold trimFrac at h
  rw [List.mem_reverse] at h
  exact List.mem_reverse.mp (mem_dropZerosTo m l.reverse c h)

/-- `dropWhile` skips an entire block of satisfying characters. -/
theorem dropWhile_append_all (p : Char → Bool) :
    ∀ (l₁ l₂ : List Char), (∀ c ∈ l₁, p c = true) →
      List.dropWhile p (l₁ ++ l₂) = List.dropWhile p l₂
  | [], _, _ => rfl
  | c :: l₁, l₂, h => by
      have hc : p c = true := h c (by simp)
      simp only [List.cons_append, List.dropWhile_cons, hc, if_true]
      exact dropWhile_append_all p l₁ l₂ (fun x hx => h x (by simp [hx]))

/-- `dropWhile` empties a list of satisfying characters. -/
theorem dropWhile_all (p : Char → Bool) (l : List Char)
    (h : ∀ c ∈ l, p c = true) : List.dropWhile p l = [] := by
  have := dropWhile_append_all p l [] h
  simpa using this

/-- The fraction part produced with an equal min/max window has exactly the
requested number of digits. -/
theorem fracCharsOf_len (v : ℚ) (d : Nat) : (fracCharsOf v d d).length = d := by
  unfold fracCharsOf
  rw [trimFrac_eq_of_le d _ (le_of_eq (fixedDigits_length d _))]
  exact fixedDigits_length d _

/-- Fraction-part characters are digits. -/
theorem mem_fracCharsOf (v : ℚ) (mf Mf : Nat) (c : Char)
    (h : c ∈ fracCharsOf v mf Mf) : c ∈ digitChars := by
  unfold fracCharsOf at h
  exact mem_fixedDigits Mf _ c (mem_trimFrac mf _ c h)

/-- The grouped rendering of `natRepr` starts with a digit. -/
theorem groupIntDigits_natRepr_head (locale : String) (n : Nat) :
    ∃ c cs, groupIntDigits locale (natRepr n) = c :: cs ∧ c ∈ digitChars := by
  have hh := groupIntDigits_head locale (natRepr n)
  rcases hgl : groupIntDigits locale (natRepr n) with _ | ⟨c, cs⟩
  · rw [hgl] at hh
    rcases hrep : natRepr n with _ | ⟨c0, cs0⟩
    · exact absurd hrep (natRepr_ne_nil n)
    · rw [hrep] at hh
      simp at hh
  · rw [hgl] at hh
    refine ⟨c, cs, rfl, ?_⟩
    have hcmem : c ∈ natRepr n := by
      rcases hrep : natRepr n with _ | ⟨c0, cs0⟩
      · exact absurd hrep (natRepr_ne_nil n)
      · rw [hrep] at hh
        simp at hh
        simp [hh]
    exact mem_natRepr n c hcmem

/-- Integer-part characters are digits or grouping separators. -/
theorem mem_intCharsOf (v : ℚ) (maxFrac : Nat) (locale : String) (c : Char)
    (h : c ∈ intCharsOf v maxFrac locale) : c ∈ digitChars ∨ c = ',' := by
  unfold intCharsOf at h
  rcases mem_groupIntDigits _ _ c h with h' | h'
  · exact Or.inl (mem_natRepr _ c h')
  · exact Or.inr h'

/-- `formatNumber` output starts with a minus sign or a digit — never `+`. -/
theorem formatNumber_head (v : ℚ) (lang : String) :
    ∃ c, (formatNumber v lang).data.head? = some c ∧ (c = '-' ∨ c ∈ digitChars) := by
  unfold formatNumber toLocaleStringFixed
  by_cases hneg : v < 0
  · exact ⟨'-', by rw [data_mk, if_pos hneg]; rfl, Or.inl rfl⟩
  · obtain ⟨c, cs, hgl, hc⟩ := groupIntDigits_natRepr_head (getLocaleCode lang)
      (roundHalfExpand (|v| * (10 ^ 3 : ℚ)) / 10 ^ 3)
    refine ⟨c, ?_, Or.inr hc⟩
    rw [data_mk, if_neg hneg, List.nil_append]
    unfold intCharsOf
    rw [hgl]
    simp

/-- Sign characters are not decimal points. -/
theorem sign_not_dot (v : ℚ) :
    ∀ c ∈ (if v < 0 then ['-'] else ([] : List Char)), (c != '.') = true := by
  intro c hc
  split at hc
  · simp at hc
    subst hc
    decide
  · simp at hc

/-- Integer-part characters are not decimal points. -/
theorem intCharsOf_not_dot (v : ℚ) (maxFrac : Nat) (locale : String) :
    ∀ c ∈ intCharsOf v maxFrac locale, (c != '.') = true := by
  intro c hc
  rcases mem_intCharsOf v maxFrac locale c hc with h' | h'
  · fin_cases h' <;> decide
  · subst h'
    decide

/-- With an equal min/max fraction window, `toLocaleStringFixed` displays
exactly the requested number of fraction digits. -/
theorem fracDigitCount_fixed (v : ℚ) (d : Nat) (locale : String) :
    fracDigitCount (toLocaleStringFixed v d d locale) = d := by
  have hlen : (fracCharsOf v d d).length = d := fracCharsOf_len v d
  have hall : ∀ c ∈ (if v < 0 then ['-'] else ([] : List Char))
      ++ intCharsOf v d locale, (c != '.') = true := by
    intro c hc
    rcases List.mem_append.mp hc with h' | h'
    · exact sign_not_dot v c h'
    · exact intCharsOf_not_dot v d locale c h'
  unfold fracDigitCount toLocaleStringFixed
  rw [data_mk]
  rcases hfc : fracCharsOf v d d with _ | ⟨c0, cs0⟩
  · have hd0 : d = 0 := by
      rw [hfc] at hlen
      simpa using hlen.symm
    rw [show (if ([] : List Char).isEmpty = true then ([] : List Char)
          else '.' :: []) = [] from rfl]
    rw [List.append_nil, dropWhile_all _ _ hall]
    simp [hd0]
  · rw [hfc] at hlen
    rw [show (if (c0 :: cs0).isEmpty = true then ([] : List Char)
          else '.' :: c0 :: cs0) = '.' :: c0 :: cs0 from rfl]
    rw [dropWhile_append_all _ _ _ hall, List.dropWhile_cons]
    simp only [show (('.' : Char) != '.') = false from rfl, Bool.false_eq_true, if_false]
    simp only [List.length_cons]
    simp only [List.length_cons] at hlen
    omega

/-- Computing `roundHalfExpand` from rational bounds (the floor itself does
not reduce in the kernel). -/
theorem roundHalfExpand_eq (q : ℚ) (n : Nat)
    (h1 : (n : ℚ) ≤ q + 1 / 2) (h2 : q + 1 / 2 < (n : ℚ) + 1) :
    roundHalfExpand q = n := by
  unfold roundHalfExpand
  have hf : ⌊q + 1 / 2⌋ = (n : ℤ) := by
    rw [Int.floor_eq_iff]
    constructor
    · exact_mod_cast h1
    · push_cast
      exact h2
  rw [hf]
  simp

/-- Evaluation of `toLocaleStringFixed` on a non-negative value once the
rounded scaled integer is known (the rational arithmetic is discharged
separately because `Rat` operations do not reduce in the kernel). -/
theorem toLocaleStringFixed_eval_nonneg (v : ℚ) (minF maxF : Nat)
    (locale : String) (scaled : Nat) (hneg : ¬ v < 0)
    (hscaled : roundHalfExpand (v * (10 ^ maxF : ℚ)) = scaled) :
    toLocaleStringFixed v minF maxF locale =
      String.mk (groupIntDigits locale (natRepr (scaled / 10 ^ maxF)) ++
        (if (trimFrac minF (fixedDigits (scaled % 10 ^ maxF) maxF)).isEmpty then []
         else '.' :: trimFrac minF (fixedDigits (scaled % 10 ^ maxF) maxF))) := by
  unfold toLocaleStringFixed intCharsOf fracCharsOf
  rw [abs_of_nonneg (not_lt.mp hneg), hscaled, if_neg hneg, List.nil_append]

/-- Evaluation of `toLocaleStringFixed` on a negative value once the rounded
scaled integer is known. -/
theorem toLocaleStringFixed_eval_neg (v : ℚ) (minF maxF : Nat)
    (locale : String) (scaled : Nat) (hneg : v < 0)
    (hscaled : roundHalfExpand (-v * (10 ^ maxF : ℚ)) = scaled) :
    toLocaleStringFixed v minF maxF locale =
      String.mk ('-' :: (groupIntDigits locale (natRepr (scaled / 10 ^ maxF)) ++
        (if (trimFrac minF (fixedDigits (scaled % 10 ^ maxF) maxF)).isEmpty then []
         else '.' :: trimFrac minF (fixedDigits (scaled % 10 ^ maxF) maxF)))) := by
  unfold toLocaleStringFixed intCharsOf fracCharsOf
  rw [abs_of_neg hneg, hscaled, if_pos hneg]
  rfl

/-! ## Claims about the Locale Formatter -/

/-- C6: `formatDecimal` renders exactly the requested number of fraction
digits for every value, digit count and language tag, padding with zeros
when the value has fewer; concretely `formatDecimal(6.5, 1, en) = "6.5"` and
`formatDecimal(6, 2, en) = "6.00"`. -/
theorem C6_formatDecimal_digits :
    formatDecimal (13 / 2 : ℚ) 1 "en" = "6.5"
    ∧ formatDecimal 6 2 "en" = "6.00"
    ∧ ∀ (v : ℚ) (d : Nat) (lang : String),
        fracDigitCount (formatDecimal v d lang) = d := by
  refine ⟨?_, ?_, ?_⟩
  · show toLocaleStringFixed (13 / 2 : ℚ) 1 1 (getLocaleCode "en") = "6.5"
    rw [show getLocaleCode "en" = "en-US" from rfl,
      toLocaleStringFixed_eval_nonneg (13 / 2 : ℚ) 1 1 "en-US" 65 (by norm_num)
        (roundHalfExpand_eq _ _ (by norm_num) (by norm_num))]
    decide
  · show toLocaleStringFixed (6 : ℚ) 2 2 (getLocaleCode "en") = "6.00"
    rw [show getLocaleCode "en" = "en-US" from rfl,
      toLocaleStringFixed_eval_nonneg (6 : ℚ) 2 2 "en-US" 600 (by norm_num)
        (roundHalfExpand_eq _ _ (by norm_num) (by norm_num))]
    decide
  · intro v d lang
    exact fracDigitCount_fixed v d (getLocaleCode lang)

/-- C7: `formatNumberWithPercent` appends a literal `%` (the last character
is always `%`), prefixes `+` exactly when `showPlus` is set and the value is
strictly positive (negative values keep their native minus), and does not
rescale the magnitude; concretely `+15%`, `-3%`, `0%`. -/
theorem C7_formatNumberWithPercent :
    formatNumberWithPercent 15 true "en" = "+15%"
    ∧ formatNumberWithPercent (-3) true "en" = "-3%"
    ∧ formatNumberWithPercent 0 false "en" = "0%"
    ∧ (∀ (v : ℚ) (s : Bool) (lang : String),
        (formatNumberWithPercent v s lang).data.getLast? = some '%')
    ∧ (∀ (v : ℚ) (s : Bool) (lang : String),
        ((formatNumberWithPercent v s lang).data.head? = some '+'
          ↔ (s = true ∧ 0 < v))) := by
  refine ⟨?_, ?_, ?_, ?_, ?_⟩
  · unfold formatNumberWithPercent
    rw [if_pos (by norm_num),
      show formatNumber 15 "en" = toLocaleStringFixed (15 : ℚ) 0 3 "en-US" from rfl,
      toLocaleStringFixed_eval_nonneg (15 : ℚ) 0 3 "en-US" 15000 (by norm_num)
        (roundHalfExpand_eq _ _ (by norm_num) (by norm_num))]
    decide
  · unfold formatNumberWithPercent
    rw [if_neg (by norm_num),
      show formatNumber (-3) "en" = toLocaleStringFixed (-3 : ℚ) 0 3 "en-US" from rfl,
      toLocaleStringFixed_eval_neg (-3 : ℚ) 0 3 "en-US" 3000 (by norm_num)
        (roundHalfExpand_eq _ _ (by norm_num) (by norm_num))]
    decide
  · unfold formatNumberWithPercent
    rw [if_neg (by norm_num),
      show formatNumber 0 "en" = toLocaleStringFixed (0 : ℚ) 0 3 "en-US" from rfl,
      toLocaleStringFixed_eval_nonneg (0 : ℚ) 0 3 "en-US" 0 (by norm_num)
        (roundHalfExpand_eq _ _ (by norm_num) (by norm_num))]
    decide
  · intro v s lang
    unfold formatNumberWithPercent
    split
    · rw [strDataAppend, strDataAppend,
        show ("%" : String).data = ['%'] from rfl]
      exact List.getLast?_concat _
    · rw [strDataAppend, show ("%" : String).data = ['%'] from rfl]
      exact List.getLast?_concat _
  · intro v s lang
    unfold formatNumberWithPercent
    by_cases hcond : (s && decide (0 < v)) = true
    · rw [if_pos hcond, strDataAppend, strDataAppend,
        show ("+" : String).data = ['+'] from rfl]
      have hsv : s = true ∧ 0 < v := by simpa using hcond
      constructor
      · intro _
        exact hsv
      · intro _
        rfl
    · rw [if_neg hcond, strDataAppend,
        show ("%" : String).data = ['%'] from rfl]
      obtain ⟨c, hc, hcd⟩ := formatNumber_head v lang
      have hcne : c ≠ '+' := by
        rcases hcd with rfl | hd
        · decide
        · fin_cases hd <;> decide
      constructor
      · intro hh
        exfalso
        rcases hdata : (formatNumber v lang).data with _ | ⟨c', cs⟩
        · rw [hdata] at hc
          simp at hc
        · rw [hdata] at hc hh
          simp at hc hh
          exact hcne (hc.symm.trans hh)
      · rintro ⟨hs, hv⟩
        exact absurd (by rw [hs]; simpa using hv) hcond

/-- A JavaScript `lookup || fallback` yields either a non-empty looked-up
string or the fallback. -/
theorem jsOrString_cases (looked : Option String) (fallback : String) :
    (∃ s, s ≠ "" ∧ looked = some s ∧ jsOrString looked fallback = s)
    ∨ jsOrString looked fallback = fallback := by
  rcases looked with _ | s
  · exact Or.inr rfl
  · by_cases hs : s = ""
    · exact Or.inr (by simp [jsOrString, hs])
    · exact Or.inl ⟨s, hs, rfl, by simp [jsOrString, hs]⟩

/-- C9: for every month index 0–11, `getMonthAbbr` and `getMonthName` are
total and return either the translated label (when the translation lookup
yields a non-empty string) or, on a missing translation, the stable internal
month key itself. -/
theorem C9_month_fallback (t : String → Option String) (monthIndex : Nat)
    (h : monthIndex < 12) :
    ((∃ s, s ≠ ""
        ∧ t ("months." ++ monthAbbrKeys.getD monthIndex "undefined") = some s
        ∧ getMonthAbbr t monthIndex = s)
      ∨ getMonthAbbr t monthIndex = monthAbbrKeys.getD monthIndex "undefined")
    ∧ ((∃ s, s ≠ ""
        ∧ t ("months." ++ monthNameKeys.getD monthIndex "undefined") = some s
        ∧ getMonthName t monthIndex = s)
      ∨ getMonthName t monthIndex = monthNameKeys.getD monthIndex "undefined")
    ∧ monthAbbrKeys.getD monthIndex "undefined" ∈ monthAbbrKeys
    ∧ monthNameKeys.getD monthIndex "undefined" ∈ monthNameKeys := by
  refine ⟨?_, ?_, ?_, ?_⟩
  · exact jsOrString_cases
      (t ("months." ++ monthAbbrKeys.getD monthIndex "undefined"))
      (monthAbbrKeys.getD monthIndex "undefined")
  · exact jsOrString_cases
      (t ("months." ++ monthNameKeys.getD monthIndex "undefined"))
      (monthNameKeys.getD monthIndex "undefined")
  · interval_cases monthIndex <;> decide
  · interval_cases monthIndex <;> decide

/-- C9, witness: a translation table with no month entries falls back to the
internal keys at month index 0. -/
theorem C9_witness :
    getMonthAbbr (fun _ => none) 0 = "jan"
    ∧ getMonthName (fun _ => none) 0 = "january" := by
  have h := C9_month_fallback (fun _ => none) 0 (by norm_num)
  constructor
  · rcases h.1 with ⟨s, _, hs, _⟩ | hk
    · exact absurd hs (by simp)
    · rw [hk]
      decide
  · rcases h.2.1 with ⟨s, _, hs, _⟩ | hk
    · exact absurd hs (by simp)
    · rw [hk]
      decide

end GreenThumb
